import Mathlib

/-!
Verification of the Protein-Api-Server annotation pipeline.

The pure core (residue property table, structure classifier, confidence
scorer, fragmenter, motif scanner) is embedded from `src/lib.js`; the
transactional orchestrator `createProteinWithFragments` and the two POST
route handlers from `src/app.js` are embedded as explicit state passing
over a storage-collaborator model.  JavaScript strings are modelled as
`List Char`, JavaScript numbers as exact rationals (every constant in the
source has two decimal digits, so float arithmetic in the source is exact
on the comparisons that matter), and a thrown exception as `Except.error`.
-/

namespace ProteinApi

/-- A residue's three structural propensity scores, in the source's field
order H, E, C (`src/lib.js` lines 6-17). -/
structure Prop3 where
  h : ℚ
  e : ℚ
  c : ℚ
deriving DecidableEq

/-- The residue property table `propensities` of `src/lib.js` lines 6-17.
Unknown symbols give `none` (JavaScript: `propensities[aa]` is `undefined`). -/
def propensities : Char → Option Prop3
  | 'A' => some ⟨1.42, 0.83, 0.80⟩
  | 'R' => some ⟨1.21, 0.84, 0.96⟩
  | 'N' => some ⟨0.67, 0.89, 1.34⟩
  | 'D' => some ⟨1.01, 0.54, 1.35⟩
  | 'C' => some ⟨0.70, 1.19, 1.06⟩
  | 'Q' => some ⟨1.11, 1.10, 0.84⟩
  | 'E' => some ⟨1.51, 0.37, 1.08⟩
  | 'G' => some ⟨0.57, 0.75, 1.56⟩
  | 'H' => some ⟨1.00, 0.87, 1.09⟩
  | 'I' => some ⟨1.08, 1.60, 0.47⟩
  | 'L' => some ⟨1.21, 1.30, 0.59⟩
  | 'K' => some ⟨1.16, 0.74, 1.07⟩
  | 'M' => some ⟨1.45, 1.05, 0.60⟩
  | 'F' => some ⟨1.13, 1.38, 0.59⟩
  | 'P' => some ⟨0.57, 0.55, 1.72⟩
  | 'S' => some ⟨0.77, 0.75, 1.39⟩
  | 'T' => some ⟨0.83, 1.19, 0.96⟩
  | 'W' => some ⟨1.08, 1.37, 0.64⟩
  | 'Y' => some ⟨0.69, 1.47, 0.87⟩
  | 'V' => some ⟨1.06, 1.70, 0.41⟩
  | _   => none

/-- The 20-symbol residue alphabet, in the order of the validation regex
`^[ACDEFGHIKLMNPQRSTVWY]+$` of `src/app.js`. -/
def residueAlphabet : List Char :=
  ['A', 'C', 'D', 'E', 'F', 'G', 'H', 'I', 'K', 'L',
   'M', 'N', 'P', 'Q', 'R', 'S', 'T', 'V', 'W', 'Y']

/-- `true` iff the character is one of the 20 residue symbols. -/
def isResidue (c : Char) : Bool := residueAlphabet.contains c

/-- One step of `predictSecondaryStructure` (`src/lib.js` lines 81-96):
`if (H > E && H > C) "H" else if (E > C) "E" else "C"`.  `none` models the
TypeError thrown when destructuring `propensities[aa]` for an unknown
symbol. -/
def classifyChar (c : Char) : Option Char :=
  (propensities c).map fun p =>
    if p.h > p.e ∧ p.h > p.c then 'H' else if p.e > p.c then 'E' else 'C'

/-- `predictSecondaryStructure` of `src/lib.js` lines 81-96, one label per
residue; `none` when any symbol is outside the table (the source throws). -/
def predictSecondaryStructure : List Char → Option (List Char)
  | [] => some []
  | c :: rest => do
      let l ← classifyChar c
      let ls ← predictSecondaryStructure rest
      pure (l :: ls)

/-- Sort a list of rationals in descending order, modelling
`Array.prototype.sort((a, b) => b - a)`. -/
def sortDesc (l : List ℚ) : List ℚ :=
  l.insertionSort (fun a b => b ≤ a)

/-- The per-residue margin computed inside `calculateConfidenceScore`
(`src/lib.js` lines 98-109): sort the triple `[H, E, C]` descending and
take `sorted[0] - sorted[1]`. -/
def marginOfTriple (p : Prop3) : ℚ :=
  let sorted := sortDesc [p.h, p.e, p.c]
  sorted.getD 0 0 - sorted.getD 1 0

/-- `calculateConfidenceScore` of `src/lib.js` lines 98-109: one margin per
residue; `none` when a symbol is outside the table (the source throws). -/
def calculateConfidenceScore : List Char → Option (List ℚ)
  | [] => some []
  | c :: rest => do
      let p ← propensities c
      let ms ← calculateConfidenceScore rest
      pure (marginOfTriple p :: ms)

/-- The per-residue mass table of `calculateMolecularWeight`
(`src/lib.js` lines 66-71). -/
def molecularWeights : Char → Option ℚ
  | 'A' => some 89.09  | 'R' => some 174.20 | 'N' => some 132.12
  | 'D' => some 133.10 | 'C' => some 121.16 | 'E' => some 147.13
  | 'Q' => some 146.15 | 'G' => some 75.07  | 'H' => some 155.16
  | 'I' => some 131.17 | 'L' => some 131.17 | 'K' => some 146.19
  | 'M' => some 149.21 | 'F' => some 165.19 | 'P' => some 115.13
  | 'S' => some 105.09 | 'T' => some 119.12 | 'W' => some 204.23
  | 'Y' => some 181.19 | 'V' => some 117.15
  | _   => none

/-- One step of the accumulation loop of `calculateMolecularWeight`
(`sum += molecularWeights[aa]`, `src/lib.js` line 75).  Adding
`undefined` (an unknown symbol's lookup) yields `NaN`, and `NaN` absorbs
every further addition; `none` models `NaN`. -/
def mwStep (acc : Option ℚ) (c : Char) : Option ℚ :=
  match acc, molecularWeights c with
  | some a, some w => some (a + w)
  | _, _ => none

/-- `calculateMolecularWeight` of `src/lib.js` lines 65-79: the
accumulator starts at `0` and is folded over the string with `mwStep`.
It is a total function: it never throws, whatever the input. -/
def calculateMolecularWeight (s : List Char) : Option ℚ :=
  s.foldl mwStep (some 0)

/-- Fuel-indexed unfolding of the sliding-window loop of
`fragmentAndStoreSequence` (`src/lib.js` line 229):
`for (let i = 0; i < L - 15 + 1; i += 5)`.  In natural numbers the loop
guard `i < L - 15 + 1` (JavaScript evaluates it over signed numbers) is
exactly `i + 15 ≤ L`.  The fuel only forces structural recursion; with
the fuel `windowStarts` supplies, it never runs out (see
`windowStarts_eq`). -/
def windowStartsAux (L : Nat) : Nat → Nat → List Nat
  | i, fuel + 1 => if i + 15 ≤ L then i :: windowStartsAux L (i + 5) fuel else []
  | _, 0 => []

/-- The ordered start offsets the sliding-window loop visits, beginning
at offset `i` (the loop itself starts at `i = 0`). -/
def windowStarts (L : Nat) (i : Nat) : List Nat :=
  windowStartsAux L i (L + 1 - i)

/-- The fragment extracted at offset `i`: `sequence.slice(i, i + 15)`
(`src/lib.js` line 231). -/
def fragmentAt (s : List Char) (i : Nat) : List Char :=
  (s.drop i).take 15

/-- The ordered fragment list produced by one run of the fragmenter loop. -/
def fragmentsOf (s : List Char) : List (Nat × List Char) :=
  (windowStarts s.length 0).map fun i => (i, fragmentAt s i)

/-- `true` iff the character is `D` or `E` (the `[DE]` residue class). -/
def isDE (c : Char) : Bool := c = 'D' || c = 'E'

/-- Match of `/N[^P][ST][^P]/` at offset `p` of `s`: returns the matched
length (always 4) or `none` (`src/lib.js` line 287). -/
def matchNGlycAt (s : List Char) (p : Nat) : Option Nat :=
  match s.get? p, s.get? (p + 1), s.get? (p + 2), s.get? (p + 3) with
  | some c0, some c1, some c2, some c3 =>
      if c0 = 'N' ∧ c1 ≠ 'P' ∧ (c2 = 'S' ∨ c2 = 'T') ∧ c3 ≠ 'P'
      then some 4 else none
  | _, _, _, _ => none

/-- Match of `/[ST].{2}[DE]/` at offset `p` of `s` (`src/lib.js` line 291). -/
def matchCK2At (s : List Char) (p : Nat) : Option Nat :=
  match s.get? p, s.get? (p + 1), s.get? (p + 2), s.get? (p + 3) with
  | some c0, some _, some _, some c3 =>
      if (c0 = 'S' ∨ c0 = 'T') ∧ (c3 = 'D' ∨ c3 = 'E')
      then some 4 else none
  | _, _, _, _ => none

/-- Match of `/[RK].{0,2}[DE]/` at offset `p` of `s` (`src/lib.js`
line 295).  The bounded repetition is greedy: the engine tries two
wildcard positions first, then one, then zero. -/
def matchTKAt (s : List Char) (p : Nat) : Option Nat :=
  match s.get? p with
  | none => none
  | some c0 =>
      if c0 = 'R' ∨ c0 = 'K' then
        if (s.get? (p + 3)).any isDE then some 4
        else if (s.get? (p + 2)).any isDE then some 3
        else if (s.get? (p + 1)).any isDE then some 2
        else none
      else none

/-- Try the matcher at each offset of `ps` in order and return the first
success together with its matched length. -/
def scanPositions (matchAt : List Char → Nat → Option Nat)
    (s : List Char) : List Nat → Option (Nat × Nat)
  | [] => none
  | p :: rest =>
      match matchAt s p with
      | some l => some (p, l)
      | none => scanPositions matchAt s rest

/-- Leftmost match of a matcher in a fragment: offsets are tried in
ascending order from 0, which is what a single `pattern.exec(fragment)`
call performs with `lastIndex = 0`. -/
def firstMatch (matchAt : List Char → Nat → Option Nat)
    (s : List Char) : Option (Nat × Nat) :=
  scanPositions matchAt s (List.range s.length)

/-- The fixed motif catalog of `identifyMotifs` (`src/lib.js` lines
285-298), in source iteration order. -/
def motifCatalog : List (String × (List Char → Nat → Option Nat)) :=
  [("N-glycosylation site", matchNGlycAt),
   ("Casein kinase II phosphorylation site", matchCK2At),
   ("Tyrosine kinase phosphorylation site", matchTKAt)]

/-- The matches `identifyMotifs` finds in one fragment: for each catalog
entry, the first occurrence only, as `(name, start, end)` in fragment
coordinates (`src/lib.js` lines 301-305). -/
def motifMatches (frag : List Char) : List (String × Nat × Nat) :=
  motifCatalog.filterMap fun nm =>
    (firstMatch nm.2 frag).map fun il => (nm.1, il.1, il.1 + il.2)

/-- The aggregate confidence `identifyMotifs` attaches to a match
(`src/lib.js` lines 306-313): the arithmetic mean of the per-residue
margins over the whole fragment. -/
def confidenceTotal (frag : List Char) : Option ℚ :=
  (calculateConfidenceScore frag).map fun l => l.sum / (l.length : ℚ)

/-- Error taxonomy: `badRequest` is a thrown `BadRequestError`,
`typeError` a JavaScript `TypeError` (property access on `undefined`),
`storage` a failed storage operation, `fragmentFailure` the
`Error("Fail to fragment and store squence")` rethrown by
`fragmentAndStoreSequence`, and `aggregate` the
`Error("Fail to create protein with fragments")` rethrown by
`createProteinWithFragments`. -/
inductive Err
  | badRequest
  | typeError
  | storage
  | fragmentFailure
  | aggregate
deriving DecidableEq

/-- A row of the `proteins` table (§6 of the spec).  Timestamps are
managed by the store and irrelevant to every claim, so they are not
modelled. -/
structure ProteinRow where
  protein_id : Nat
  name : String
  description : String
  molecular_weight : Option ℚ
  sequence_length : Nat
  sequence_url : Option String
deriving DecidableEq

/-- A row of the `fragments` table (§6 of the spec). -/
structure FragmentRow where
  fragment_id : Nat
  protein_id : Nat
  sequence : List Char
  start_position : Nat
  end_position : Nat
  secondary_structure : List Char
  url : Option String
deriving DecidableEq

/-- A row of the `motifs` table (§6 of the spec). -/
structure MotifRow where
  motif_id : Nat
  fragment_id : Nat
  motif_pattern : List Char
  motif_type : String
  start_position : Nat
  end_position : Nat
  confidence_score : ℚ
deriving DecidableEq

/-- The relational state: the three tables plus the generated-identifier
counter. -/
structure DB where
  proteins : List ProteinRow
  fragments : List FragmentRow
  motifs : List MotifRow
  nextId : Nat
deriving DecidableEq

/-- The empty database. -/
def DB.empty : DB := ⟨[], [], [], 0⟩

/-- Modelled from the spec: the storage collaborator of §6 seen through
one connection.  `committed` is what external readers observe; `buffer`
is the connection's uncommitted view inside the open transaction
(`BEGIN` copies `committed` into it, `COMMIT` publishes it, `ROLLBACK`
discards it); `opCount` numbers the storage operations issued so far so
that a failure oracle can make any chosen operation raise a
StorageFailure. -/
structure PoolState where
  committed : DB
  buffer : DB
  opCount : Nat
deriving DecidableEq

/-- The initial pool state over a database. -/
def PoolState.init (db : DB) : PoolState := ⟨db, db, 0⟩

/-- A computation against the pool: explicit state passing, a thrown
exception modelled as `Except.error`. -/
def M (α : Type) : Type := PoolState → Except Err α × PoolState

instance : Monad M where
  pure a := fun st => (Except.ok a, st)
  bind m f := fun st =>
    match m st with
    | (Except.ok a, st1) => f a st1
    | (Except.error e, st1) => (Except.error e, st1)

/-- Throw an exception, leaving the pool untouched. -/
def throwErr {α : Type} (e : Err) : M α := fun st => (Except.error e, st)

/-- `try { m } catch (e) { h e }`. -/
def tryCatchM {α : Type} (m : M α) (h : Err → M α) : M α := fun st =>
  match m st with
  | (Except.ok a, st1) => (Except.ok a, st1)
  | (Except.error e, st1) => h e st1

/-- Modelled from the spec: one data-changing statement against the open
transaction.  If the oracle fails this operation ordinal, the statement
raises and changes no data; otherwise it transforms the transaction
buffer and returns a value. -/
def dbOp {α : Type} (oracle : Nat → Bool) (f : DB → DB × α) : M α := fun st =>
  let st1 : PoolState := { st with opCount := st.opCount + 1 }
  if oracle st.opCount then (Except.error Err.storage, st1)
  else
    let r := f st1.buffer
    (Except.ok r.2, { st1 with buffer := r.1 })

/-- `pool.query('BEGIN')`: open the transaction scope. -/
def beginTxn (oracle : Nat → Bool) : M Unit := fun st =>
  let st1 : PoolState := { st with opCount := st.opCount + 1 }
  if oracle st.opCount then (Except.error Err.storage, st1)
  else (Except.ok (), { st1 with buffer := st1.committed })

/-- `pool.query('COMMIT')`: publish the transaction buffer. -/
def commitTxn (oracle : Nat → Bool) : M Unit := fun st =>
  let st1 : PoolState := { st with opCount := st.opCount + 1 }
  if oracle st.opCount then (Except.error Err.storage, st1)
  else (Except.ok (), { st1 with committed := st1.buffer })

/-- `pool.query('ROLLBACK')`: discard the transaction buffer.  The claims
under proof do not concern a rollback that itself fails (§7 treats that
as a distinct, more severe condition), so rollback is modelled as
succeeding. -/
def rollbackTxn : M Unit := fun st =>
  (Except.ok (), { st with buffer := st.committed })

/-- The protein metadata assembled by the route handlers before calling
the orchestrator (`src/app.js` lines 280-285 and 323-328). -/
structure ProteinData where
  name : String
  description : String
  molecularWeight : Option ℚ
  sequenceLength : Nat

/-- The sequence-download reference URL (`src/lib.js` line 192). -/
def proteinUrl (pid : Nat) : String :=
  "http://localhost:3000/api/proteins/" ++ toString pid ++ "/download"

/-- The fragment reference URL (`src/lib.js` line 268). -/
def fragmentUrl (fid : Nat) : String :=
  "http://localhost:3000/api/fragments/" ++ toString fid

/-- The protein INSERT of `createProteinWithFragments` (`src/lib.js`
lines 178-187), returning the generated `protein_id`. -/
def insertProtein (oracle : Nat → Bool) (pd : ProteinData) : M Nat :=
  dbOp oracle fun db =>
    ({ db with
        proteins := db.proteins ++
          [⟨db.nextId, pd.name, pd.description, pd.molecularWeight,
            pd.sequenceLength, none⟩],
        nextId := db.nextId + 1 },
     db.nextId)

/-- The sequence-URL backfill UPDATE (`src/lib.js` lines 194-202). -/
def updateProteinUrl (oracle : Nat → Bool) (pid : Nat) (url : String) : M Unit :=
  dbOp oracle fun db =>
    ({ db with
        proteins := db.proteins.map fun r =>
          if r.protein_id = pid then { r with sequence_url := some url } else r },
     ())

/-- The fragment INSERT (`src/lib.js` lines 250-260), returning the
generated `fragment_id`. -/
def insertFragment (oracle : Nat → Bool) (pid : Nat) (frag : List Char)
    (startPos endPos : Nat) (ss : List Char) : M Nat :=
  dbOp oracle fun db =>
    ({ db with
        fragments := db.fragments ++
          [⟨db.nextId, pid, frag, startPos, endPos, ss, none⟩],
        nextId := db.nextId + 1 },
     db.nextId)

/-- The fragment-URL backfill UPDATE (`src/lib.js` lines 263-271). -/
def updateFragmentUrl (oracle : Nat → Bool) (fid : Nat) : M Unit :=
  dbOp oracle fun db =>
    ({ db with
        fragments := db.fragments.map fun r =>
          if r.fragment_id = fid then { r with url := some (fragmentUrl fid) } else r },
     ())

/-- The motif INSERT (`src/lib.js` lines 316-327).  Note: the inserted
`start_position` and `end_position` are exactly the in-fragment match
coordinates; `identifyMotifs` is never given the fragment's absolute
offset. -/
def insertMotif (oracle : Nat → Bool) (fid : Nat) (pat : List Char)
    (name : String) (startPos endPos : Nat) (conf : ℚ) : M Unit :=
  dbOp oracle fun db =>
    ({ db with
        motifs := db.motifs ++
          [⟨db.nextId, fid, pat, name, startPos, endPos, conf⟩],
        nextId := db.nextId + 1 },
     ())

/-- Persist one found match (`src/lib.js` lines 303-327): compute the
whole-fragment aggregate confidence, then insert the motif row.  A
fragment symbol outside the table makes the confidence computation throw. -/
def insertMatch (oracle : Nat → Bool) (frag : List Char) (fid : Nat)
    (name : String) (il : Nat × Nat) : M Unit :=
  match confidenceTotal frag with
  | none => throwErr Err.typeError
  | some conf =>
      insertMotif oracle fid ((frag.drop il.1).take il.2) name il.1 (il.1 + il.2) conf

/-- The catalog loop of `identifyMotifs` (`src/lib.js` lines 301-329):
for each entry, run `exec` once and insert the first occurrence if any. -/
def identifyMotifsOver (oracle : Nat → Bool) (frag : List Char) (fid : Nat) :
    List (String × (List Char → Nat → Option Nat)) → M Unit
  | [] => pure ()
  | nm :: rest => do
      (match firstMatch nm.2 frag with
       | none => pure ()
       | some il => insertMatch oracle frag fid nm.1 il)
      identifyMotifsOver oracle frag fid rest

/-- `identifyMotifs` of `src/lib.js` lines 284-334 (its own try/catch
only rethrows, so it is not modelled separately). -/
def identifyMotifs (oracle : Nat → Bool) (frag : List Char) (fid : Nat) : M Unit :=
  identifyMotifsOver oracle frag fid motifCatalog

/-- The body of the sliding-window loop of `fragmentAndStoreSequence`
(`src/lib.js` lines 229-275), iterated over the produced fragments in
order: predict the structure, insert the fragment, backfill its URL,
then scan it for motifs. -/
def storeFragments (oracle : Nat → Bool) (pid : Nat) :
    List (Nat × List Char) → M Unit
  | [] => pure ()
  | (i, frag) :: rest =>
      match predictSecondaryStructure frag with
      | none => throwErr Err.typeError
      | some ss => do
          let fid ← insertFragment oracle pid frag i (i + 15) ss
          updateFragmentUrl oracle fid
          identifyMotifs oracle frag fid
          storeFragments oracle pid rest

/-- `fragmentAndStoreSequence` of `src/lib.js` lines 222-282: run the
sliding-window loop; any error is caught and rethrown as the generic
fragmentation failure (the transaction handles the rollback). -/
def fragmentAndStoreSequence (oracle : Nat → Bool) (pid : Nat)
    (s : List Char) : M Unit :=
  tryCatchM (storeFragments oracle pid (fragmentsOf s))
    (fun _ => throwErr Err.fragmentFailure)

/-- The value `createProteinWithFragments` returns on success
(timestamps, which the store generates, are not modelled). -/
structure CreateOutput where
  protein_id : Nat
  sequenceUrl : String
deriving DecidableEq

/-- The `try` block of `createProteinWithFragments` (`src/lib.js` lines
173-212): inside one transaction, insert the protein, backfill its
sequence URL, store all fragments and motifs, and commit. -/
def annotateBody (oracle : Nat → Bool) (pd : ProteinData)
    (s : List Char) : M CreateOutput := do
  beginTxn oracle
  let pid ← insertProtein oracle pd
  updateProteinUrl oracle pid (proteinUrl pid)
  fragmentAndStoreSequence oracle pid s
  commitTxn oracle
  pure ⟨pid, proteinUrl pid⟩

/-- `createProteinWithFragments` of `src/lib.js` lines 172-219: run the
transaction body; any error triggers a rollback and a single aggregate
failure (`Error("Fail to create protein with fragments")`). -/
def createProteinWithFragments (oracle : Nat → Bool) (pd : ProteinData)
    (s : List Char) : M CreateOutput :=
  tryCatchM (annotateBody oracle pd s)
    (fun _ => do
        rollbackTxn
        throwErr Err.aggregate)

/-- `POST /api/proteins/sequence` (`src/app.js` lines 265-305) without
its HTTP envelope: the raw text body is the sequence; `genName` stands
for the timestamp-dependent result of `generateProteinName`.  The
validation check is the source's
`!sequence || length > 2000 || length < 20 || !regex.test(sequence)`. -/
def postProteinsSequence (oracle : Nat → Bool) (genName : String)
    (s : List Char) : M CreateOutput := fun st =>
  if s.isEmpty || decide (2000 < s.length) || decide (s.length < 20)
      || !(s.all isResidue) then
    (Except.error Err.badRequest, st)
  else
    createProteinWithFragments oracle
      ⟨genName, "", calculateMolecularWeight s, s.length⟩ s st

/-- `POST /api/proteins` (`src/app.js` lines 308-348) without its HTTP
envelope.  `name` and `descr` are the request-body fields, absent fields
being `none` (`description` carries the destructuring default `''`).
The source evaluates `name.length` unconditionally once both length
bounds pass, so an absent `name` throws a TypeError there. -/
def postProteins (oracle : Nat → Bool) (genName : String) (s : List Char)
    (name : Option String) (descr : Option String) : M CreateOutput := fun st =>
  let description := descr.getD ""
  let proName := match name with
    | some nm => if nm = "" then genName else nm
    | none => genName
  if decide (2000 < s.length) then (Except.error Err.badRequest, st)
  else if decide (s.length < 20) then (Except.error Err.badRequest, st)
  else
    match name with
    | none => (Except.error Err.typeError, st)
    | some nm =>
        if decide (100 < nm.length) || decide (1000 < description.length)
            || !(s.all isResidue) then
          (Except.error Err.badRequest, st)
        else
          createProteinWithFragments oracle
            ⟨proName, description, calculateMolecularWeight s, s.length⟩ s st

/-- Specification-side predicate: label `l` is the one whose propensity
score in `p` is strictly greater than both others (§4.2 of the spec). -/
def strictlyGreatest (p : Prop3) (l : Char) : Prop :=
  (l = 'H' ∧ p.e < p.h ∧ p.c < p.h) ∨
  (l = 'E' ∧ p.h < p.e ∧ p.c < p.e) ∨
  (l = 'C' ∧ p.h < p.c ∧ p.e < p.c)

/-- Specification-side predicate: the three propensity scores are
pairwise distinct, so the tie-break clause of §4.2 never fires. -/
def distinctScores (p : Prop3) : Prop :=
  p.h ≠ p.e ∧ p.h ≠ p.c ∧ p.e ≠ p.c

instance (p : Prop3) (l : Char) : Decidable (strictlyGreatest p l) := by
  unfold strictlyGreatest
  infer_instance

instance (p : Prop3) : Decidable (distinctScores p) := by
  unfold distinctScores
  infer_instance

/-- The reconstruction loop of `GET /api/proteins/:proteinId/download`
(`src/app.js` lines 227-231): the first row's full residues, then
`substring(10)` of every later row, concatenated in row order. -/
def reconstruct : List (List Char) → List Char
  | [] => []
  | f :: rest => f ++ (rest.map fun g => g.drop 10).flatten

/-- The download route's reconstruction applied to the fragments of `s`
in ascending start order. -/
def downloadReconstruct (s : List Char) : List Char :=
  reconstruct ((fragmentsOf s).map Prod.snd)

/-- Specification-side value: the sum of the fixed per-residue masses of
a sequence over the 20-symbol alphabet. -/
def residueMassSum (s : List Char) : ℚ :=
  (s.map fun c => (molecularWeights c).getD 0).sum

/-- A computation that never changes the externally visible (committed)
database, whatever state it starts from. -/
def PreservesCommitted {α : Type} (m : M α) : Prop :=
  ∀ st : PoolState, ((m st).2).committed = st.committed

/-- A concrete fragment containing an N-glycosylation motif at
in-fragment offset 0; it is the fragment the fragmenter extracts at
absolute offset 5 of the sequence `GGGGGNASAGGGGGGGGGGG`. -/
def c1Frag : List Char := "NASAGGGGGGGGGGG".toList

/-- The pool state after the scanner persists the matches of `c1Frag`
for fragment id 3 with no injected failures, starting from an empty
database. -/
def c1Run : PoolState :=
  (identifyMotifs (fun _ => false) c1Frag 3 (PoolState.init DB.empty)).2

/-- The single motif row that run persists. -/
def c1Row : MotifRow :=
  (c1Run.buffer.motifs).get ⟨0, by decide⟩

/-! ## Running the pool monad -/

theorem run_pure {α : Type} (a : α) (st : PoolState) :
    (pure a : M α) st = (Except.ok a, st) := rfl

theorem run_bind {α β : Type} (m : M α) (f : α → M β) (st : PoolState) :
    (m >>= f) st =
      match m st with
      | (Except.ok a, st1) => f a st1
      | (Except.error e, st1) => (Except.error e, st1) := rfl

theorem run_tryCatch {α : Type} (m : M α) (h : Err → M α) (st : PoolState) :
    tryCatchM m h st =
      match m st with
      | (Except.ok a, st1) => (Except.ok a, st1)
      | (Except.error e, st1) => h e st1 := rfl

/-! ## Preservation of the committed database -/

theorem pc_pure {α : Type} (a : α) : PreservesCommitted (pure a : M α) :=
  fun _ => rfl

theorem pc_throwErr {α : Type} (e : Err) : PreservesCommitted (throwErr e : M α) :=
  fun _ => rfl

theorem pc_bind {α β : Type} {m : M α} {f : α → M β}
    (hm : PreservesCommitted m) (hf : ∀ a, PreservesCommitted (f a)) :
    PreservesCommitted (m >>= f) := by
  intro st
  rw [run_bind]
  rcases h1 : m st with ⟨r, st1⟩
  have h2 : st1.committed = st.committed := by
    have h3 := hm st
    rw [h1] at h3
    exact h3
  cases r with
  | ok a => exact (hf a st1).trans h2
  | error e => exact h2

theorem pc_tryCatch {α : Type} {m : M α} {h : Err → M α}
    (hm : PreservesCommitted m) (hh : ∀ e, PreservesCommitted (h e)) :
    PreservesCommitted (tryCatchM m h) := by
  intro st
  rw [run_tryCatch]
  rcases h1 : m st with ⟨r, st1⟩
  have h2 : st1.committed = st.committed := by
    have h3 := hm st
    rw [h1] at h3
    exact h3
  cases r with
  | ok a => exact h2
  | error e => exact (hh e st1).trans h2

theorem pc_dbOp {α : Type} (oracle : Nat → Bool) (f : DB → DB × α) :
    PreservesCommitted (dbOp oracle f) := by
  intro st
  unfold dbOp
  dsimp only
  split <;> rfl

theorem pc_beginTxn (oracle : Nat → Bool) : PreservesCommitted (beginTxn oracle) := by
  intro st
  unfold beginTxn
  dsimp only
  split <;> rfl

theorem pc_rollbackTxn : PreservesCommitted rollbackTxn :=
  fun _ => rfl

theorem pc_insertProtein (oracle : Nat → Bool) (pd : ProteinData) :
    PreservesCommitted (insertProtein oracle pd) :=
  pc_dbOp oracle _

theorem pc_updateProteinUrl (oracle : Nat → Bool) (pid : Nat) (url : String) :
    PreservesCommitted (updateProteinUrl oracle pid url) :=
  pc_dbOp oracle _

theorem pc_insertFragment (oracle : Nat → Bool) (pid : Nat) (frag : List Char)
    (startPos endPos : Nat) (ss : List Char) :
    PreservesCommitted (insertFragment oracle pid frag startPos endPos ss) :=
  pc_dbOp oracle _

theorem pc_updateFragmentUrl (oracle : Nat → Bool) (fid : Nat) :
    PreservesCommitted (updateFragmentUrl oracle fid) :=
  pc_dbOp oracle _

theorem pc_insertMotif (oracle : Nat → Bool) (fid : Nat) (pat : List Char)
    (name : String) (startPos endPos : Nat) (conf : ℚ) :
    PreservesCommitted (insertMotif oracle fid pat name startPos endPos conf) :=
  pc_dbOp oracle _

theorem pc_insertMatch (oracle : Nat → Bool) (frag : List Char) (fid : Nat)
    (name : String) (il : Nat × Nat) :
    PreservesCommitted (insertMatch oracle frag fid name il) := by
  unfold insertMatch
  cases confidenceTotal frag with
  | none => exact pc_throwErr _
  | some q => exact pc_insertMotif oracle fid _ name il.1 (il.1 + il.2) q

theorem pc_identifyMotifsOver (oracle : Nat → Bool) (frag : List Char) (fid : Nat) :
    ∀ cat, PreservesCommitted (identifyMotifsOver oracle frag fid cat) := by
  intro cat
  induction cat with
  | nil => exact pc_pure ()
  | cons nm rest ih =>
      unfold identifyMotifsOver
      apply pc_bind _ fun _ => ih
      cases firstMatch nm.2 frag with
      | none => exact pc_pure ()
      | some il => exact pc_insertMatch oracle frag fid nm.1 il

theorem pc_identifyMotifs (oracle : Nat → Bool) (frag : List Char) (fid : Nat) :
    PreservesCommitted (identifyMotifs oracle frag fid) :=
  pc_identifyMotifsOver oracle frag fid motifCatalog

theorem pc_storeFragments (oracle : Nat → Bool) (pid : Nat) :
    ∀ frags, PreservesCommitted (storeFragments oracle pid frags) := by
  intro frags
  induction frags with
  | nil => exact pc_pure ()
  | cons p rest ih =>
      rcases p with ⟨i, frag⟩
      unfold storeFragments
      cases predictSecondaryStructure frag with
      | none => exact pc_throwErr _
      | some ss =>
          apply pc_bind (pc_insertFragment oracle pid frag i (i + 15) ss)
          intro fid
          apply pc_bind (pc_updateFragmentUrl oracle fid)
          intro _
          exact pc_bind (pc_identifyMotifs oracle frag fid) fun _ => ih

theorem pc_fragmentAndStoreSequence (oracle : Nat → Bool) (pid : Nat) (s : List Char) :
    PreservesCommitted (fragmentAndStoreSequence oracle pid s) :=
  pc_tryCatch (pc_storeFragments oracle pid _) fun _ => pc_throwErr _

theorem commitTxn_error_committed (oracle : Nat → Bool) (st : PoolState) (e : Err)
    (h : (commitTxn oracle st).1 = Except.error e) :
    ((commitTxn oracle st).2).committed = st.committed := by
  unfold commitTxn at h ⊢
  dsimp only at h ⊢
  by_cases ho : oracle st.opCount = true
  · rw [if_pos ho]
  · rw [if_neg ho] at h
    simp at h

theorem annotateBody_error_committed (oracle : Nat → Bool) (pd : ProteinData)
    (s : List Char) (st : PoolState) (e : Err)
    (h : ((annotateBody oracle pd s) st).1 = Except.error e) :
    (((annotateBody oracle pd s) st).2).committed = st.committed := by
  unfold annotateBody at h ⊢
  rw [run_bind] at h ⊢
  rcases h1 : beginTxn oracle st with ⟨r1, st1⟩
  rw [h1] at h
  have hc1 : st1.committed = st.committed := by
    have h3 := pc_beginTxn oracle st
    rw [h1] at h3
    exact h3
  cases r1 with
  | error e1 => exact hc1
  | ok a1 =>
      dsimp only at h ⊢
      rw [run_bind] at h ⊢
      rcases h2 : insertProtein oracle pd st1 with ⟨r2, st2⟩
      rw [h2] at h
      have hc2 : st2.committed = st1.committed := by
        have h3 := pc_insertProtein oracle pd st1
        rw [h2] at h3
        exact h3
      cases r2 with
      | error e2 => exact hc2.trans hc1
      | ok pid =>
          dsimp only at h ⊢
          rw [run_bind] at h ⊢
          rcases h3 : updateProteinUrl oracle pid (proteinUrl pid) st2 with ⟨r3, st3⟩
          rw [h3] at h
          have hc3 : st3.committed = st2.committed := by
            have h4 := pc_updateProteinUrl oracle pid (proteinUrl pid) st2
            rw [h3] at h4
            exact h4
          cases r3 with
          | error e3 => exact (hc3.trans hc2).trans hc1
          | ok a3 =>
              dsimp only at h ⊢
              rw [run_bind] at h ⊢
              rcases h4 : fragmentAndStoreSequence oracle pid s st3 with ⟨r4, st4⟩
              rw [h4] at h
              have hc4 : st4.committed = st3.committed := by
                have h5 := pc_fragmentAndStoreSequence oracle pid s st3
                rw [h4] at h5
                exact h5
              cases r4 with
              | error e4 => exact ((hc4.trans hc3).trans hc2).trans hc1
              | ok a4 =>
                  dsimp only at h ⊢
                  rw [run_bind] at h ⊢
                  rcases h5 : commitTxn oracle st4 with ⟨r5, st5⟩
                  rw [h5] at h
                  cases r5 with
                  | error e5 =>
                      have hc5 : st5.committed = st4.committed := by
                        have h6 := commitTxn_error_committed oracle st4 e5 (by rw [h5])
                        rw [h5] at h6
                        exact h6
                      exact (((hc5.trans hc4).trans hc3).trans hc2).trans hc1
                  | ok a5 =>
                      dsimp only at h
                      rw [run_pure] at h
                      exact absurd h (by simp)

/-- C2: for every annotation run in which any storage operation fails
(protein insert, sequence-URL backfill, fragment insert, fragment-URL
backfill, or motif insert — all failures are injected by the oracle),
`createProteinWithFragments` surfaces the single aggregate failure after
rolling back, and the committed (externally visible) database after the
failed call equals the one before it, so no Protein, Fragment or Motif
Match from that run is ever externally visible. -/
theorem C2_rollback_atomicity (oracle : Nat → Bool) (pd : ProteinData)
    (s : List Char) (st : PoolState) (e : Err)
    (h : (createProteinWithFragments oracle pd s st).1 = Except.error e) :
    e = Err.aggregate ∧
    ((createProteinWithFragments oracle pd s st).2).committed = st.committed := by
  unfold createProteinWithFragments at h ⊢
  rw [run_tryCatch] at h ⊢
  rcases h1 : annotateBody oracle pd s st with ⟨r, st1⟩
  rw [h1] at h
  cases r with
  | ok a =>
      dsimp only at h
      exact absurd h (by simp)
  | error e1 =>
      dsimp only at h ⊢
      have hrun : ((rollbackTxn >>= fun _ => throwErr Err.aggregate : M CreateOutput) st1)
          = (Except.error Err.aggregate, { st1 with buffer := st1.committed }) := rfl
      rw [hrun] at h ⊢
      dsimp only at h ⊢
      refine ⟨by injection h.symm, ?_⟩
      have h2 := annotateBody_error_committed oracle pd s st e1 (by rw [h1])
      rw [h1] at h2
      exact h2

/-- Witness for C2: an oracle that fails every storage operation makes a
concrete run fail, and the committed database is untouched. -/
theorem C2_rollback_atomicity_witness :
    Err.aggregate = Err.aggregate ∧
    ((createProteinWithFragments (fun _ => true) ⟨"p", "", none, 20⟩
        (List.replicate 20 'A') (PoolState.init DB.empty)).2).committed
      = (PoolState.init DB.empty).committed :=
  C2_rollback_atomicity (fun _ => true) ⟨"p", "", none, 20⟩ (List.replicate 20 'A')
    (PoolState.init DB.empty) Err.aggregate rfl

/-! ## The fragmenter -/

theorem windowStartsAux_congr (L : Nat) :
    ∀ f1 i f2 : Nat, L < i + f1 + 15 → L < i + f2 + 15 →
      windowStartsAux L i f1 = windowStartsAux L i f2 := by
  intro f1
  induction f1 with
  | zero =>
      intro i f2 h1 h2
      cases f2 with
      | zero => rfl
      | succ g =>
          simp only [windowStartsAux]
          rw [if_neg (by omega)]
  | succ g ih =>
      intro i f2 h1 h2
      cases f2 with
      | zero =>
          simp only [windowStartsAux]
          rw [if_neg (by omega)]
      | succ g2 =>
          simp only [windowStartsAux]
          by_cases hc : i + 15 ≤ L
          · rw [if_pos hc, if_pos hc, ih (i + 5) g2 (by omega) (by omega)]
          · rw [if_neg hc, if_neg hc]

theorem windowStarts_eq (L i : Nat) :
    windowStarts L i = if i + 15 ≤ L then i :: windowStarts L (i + 5) else [] := by
  unfold windowStarts
  by_cases hc : i + 15 ≤ L
  · rw [if_pos hc]
    have h1 : L + 1 - i = (L - i) + 1 := by omega
    rw [h1]
    simp only [windowStartsAux]
    rw [if_pos hc]
    congr 1
    exact windowStartsAux_congr L (L - i) (i + 5) (L + 1 - (i + 5)) (by omega) (by omega)
  · rw [if_neg hc]
    cases h2 : L + 1 - i with
    | zero => rfl
    | succ g =>
        simp only [windowStartsAux]
        rw [if_neg hc]

theorem windowStarts_nil (L i : Nat) (h : L < i + 15) : windowStarts L i = [] := by
  rw [windowStarts_eq, if_neg (by omega)]

theorem windowStarts_map (L : Nat) :
    ∀ d i, L - i ≤ d → i + 15 ≤ L →
      windowStarts L i = (List.range ((L - 15 - i) / 5 + 1)).map fun n => i + 5 * n := by
  intro d
  induction d with
  | zero =>
      intro i h1 h2
      exact absurd h2 (by omega)
  | succ d ih =>
      intro i h1 h2
      rw [windowStarts_eq, if_pos h2]
      by_cases h3 : i + 5 + 15 ≤ L
      · rw [ih (i + 5) (by omega) h3]
        have h4 : L - 15 - i = (L - 15 - (i + 5)) + 5 := by omega
        have h5 : (L - 15 - i) / 5 = (L - 15 - (i + 5)) / 5 + 1 := by
          rw [h4, Nat.add_div_right _ (by norm_num)]
        rw [h5]
        conv_rhs => rw [List.range_succ_eq_map]
        rw [List.map_cons, List.map_map]
        rw [show i + 5 * 0 = i by ring]
        refine congrArg (List.cons i) (List.map_congr_left fun n _ => ?_)
        simp only [Function.comp_apply, Nat.succ_eq_add_one]
        ring
      · rw [windowStarts_nil L (i + 5) (by omega)]
        have h4 : (L - 15 - i) / 5 = 0 := Nat.div_eq_of_lt (by omega)
        rw [h4]
        simp [List.range_succ]

theorem windowStarts_zero_map (L : Nat) (h : 15 ≤ L) :
    windowStarts L 0 = (List.range ((L - 15) / 5 + 1)).map fun n => 5 * n := by
  have h1 := windowStarts_map L L 0 (by omega) (by omega)
  simpa using h1

theorem windowStarts_mem (L : Nat) (h : 15 ≤ L) :
    ∀ i ∈ windowStarts L 0, i + 15 ≤ L := by
  rw [windowStarts_zero_map L h]
  intro i hi
  simp only [List.mem_map, List.mem_range] at hi
  obtain ⟨n, hn, rfl⟩ := hi
  have h2 : n ≤ (L - 15) / 5 := by omega
  have h3 : n * 5 ≤ L - 15 := (Nat.le_div_iff_mul_le (by norm_num)).mp h2
  omega

/-- C3: for every sequence of length `L ≥ 15` the fragmenter produces
exactly `(L - 15) / 5 + 1` fragments (floor division), each of exactly
15 residues, with absolute starts `0, 5, 10, …` in ascending order; for
every sequence of length `L < 15` it produces zero fragments. -/
theorem C3_fragmenter (s : List Char) :
    (15 ≤ s.length →
      (fragmentsOf s).length = (s.length - 15) / 5 + 1 ∧
      (fragmentsOf s).map Prod.fst
        = (List.range ((s.length - 15) / 5 + 1)).map (fun n => 5 * n) ∧
      ∀ p ∈ fragmentsOf s, (p.2).length = 15) ∧
    (s.length < 15 → fragmentsOf s = []) := by
  constructor
  · intro h
    refine ⟨?_, ?_, ?_⟩
    · unfold fragmentsOf
      rw [windowStarts_zero_map _ h]
      simp
    · unfold fragmentsOf
      rw [List.map_map]
      have hcomp : (Prod.fst ∘ fun i => (i, fragmentAt s i)) = fun i : Nat => i := rfl
      rw [hcomp, List.map_id']
      exact windowStarts_zero_map _ h
    · intro p hp
      unfold fragmentsOf at hp
      simp only [List.mem_map] at hp
      obtain ⟨i, hi, rfl⟩ := hp
      have hb := windowStarts_mem s.length h i hi
      simp only [fragmentAt, List.length_take, List.length_drop]
      omega
  · intro h
    unfold fragmentsOf
    rw [windowStarts_nil _ _ (by omega)]
    rfl

/-- Witness for C3: a length-20 sequence gives two fragments with starts
0 and 5, and a length-10 sequence gives none. -/
theorem C3_fragmenter_witness :
    (fragmentsOf (List.replicate 20 'A')).length = (20 - 15) / 5 + 1 ∧
    fragmentsOf (List.replicate 10 'A') = [] := by
  constructor
  · have h1 := (C3_fragmenter (List.replicate 20 'A')).1 (by decide)
    simpa using h1.1
  · exact (C3_fragmenter (List.replicate 10 'A')).2 (by decide)

/-! ## The structure classifier -/

theorem isResidue_mem (c : Char) (h : isResidue c = true) : c ∈ residueAlphabet := by
  simpa [isResidue] using h

theorem residue_classifyChar (c : Char) (h : isResidue c = true) :
    ∃ p l, propensities c = some p ∧ classifyChar c = some l ∧
      distinctScores p ∧ strictlyGreatest p l := by
  have hm : c ∈ residueAlphabet := isResidue_mem c h
  fin_cases hm <;>
    refine ⟨_, _, rfl, rfl, ?_, ?_⟩ <;>
      norm_num [distinctScores, strictlyGreatest]

theorem predictSecondaryStructure_length :
    ∀ (s ls : List Char), predictSecondaryStructure s = some ls → ls.length = s.length := by
  intro s
  induction s with
  | nil =>
      intro ls h
      simp only [predictSecondaryStructure, Option.some.injEq] at h
      rw [← h]
  | cons c rest ih =>
      intro ls h
      simp only [predictSecondaryStructure] at h
      cases hc : classifyChar c with
      | none => rw [hc] at h; simp at h
      | some l =>
          rw [hc] at h
          cases hr : predictSecondaryStructure rest with
          | none => rw [hr] at h; simp at h
          | some ls2 =>
              rw [hr] at h
              simp at h
              rw [← h]
              simp [ih ls2 hr]

theorem predictSecondaryStructure_isSome :
    ∀ s : List Char, s.all isResidue = true →
      ∃ ls, predictSecondaryStructure s = some ls := by
  intro s
  induction s with
  | nil => exact fun _ => ⟨[], rfl⟩
  | cons c rest ih =>
      intro h
      simp only [List.all_cons, Bool.and_eq_true] at h
      obtain ⟨p, l, hp, hl, _, _⟩ := residue_classifyChar c h.1
      obtain ⟨ls, hls⟩ := ih h.2
      exact ⟨l :: ls, by simp [predictSecondaryStructure, hl, hls]⟩

/-- Counterexample to C4 as stated: a 16-residue sequence yields
`floor((16-15)/5)+1 = 1` fragment, while the claimed ceiling formula
(`ceil(a/5) = (a+5-1)/5` over naturals) demands 2. -/
theorem C4_counterexample :
    (fragmentsOf (List.replicate 16 'G')).length = 1 ∧
    (16 - 15 + 5 - 1) / 5 + 1 = 2 ∧ (1 : Nat) ≠ 2 := by
  refine ⟨by decide, by norm_num, by norm_num⟩

/-- C4 (amended): a fully fragmented protein with `N ≥ 15` residues over
the alphabet has `floor((N-15)/5) + 1` fragments (not the ceiling), and
each fragment's secondary-structure label string has length equal to its
residue count. -/
theorem C4_fragment_count_and_labels (s : List Char) (h15 : 15 ≤ s.length)
    (hres : s.all isResidue = true) :
    (fragmentsOf s).length = (s.length - 15) / 5 + 1 ∧
    ∀ p ∈ fragmentsOf s, ∃ ss, predictSecondaryStructure p.2 = some ss ∧
      ss.length = p.2.length := by
  refine ⟨((C3_fragmenter s).1 h15).1, ?_⟩
  intro p hp
  have hsub : (p.2).all isResidue = true := by
    rw [List.all_eq_true] at hres ⊢
    intro c hc
    apply hres
    unfold fragmentsOf at hp
    simp only [List.mem_map] at hp
    obtain ⟨i, hi, rfl⟩ := hp
    simp only [fragmentAt] at hc
    exact (List.drop_subset i s) ((List.take_subset 15 (s.drop i)) hc)
  obtain ⟨ss, hss⟩ := predictSecondaryStructure_isSome p.2 hsub
  exact ⟨ss, hss, predictSecondaryStructure_length p.2 ss hss⟩

/-- Witness for the amended C4 at a concrete length-20 sequence. -/
theorem C4_fragment_count_and_labels_witness :
    (fragmentsOf (List.replicate 20 'A')).length
      = ((List.replicate 20 'A' : List Char).length - 15) / 5 + 1 ∧
    ∀ p ∈ fragmentsOf (List.replicate 20 'A'),
      ∃ ss, predictSecondaryStructure p.2 = some ss ∧ ss.length = p.2.length :=
  C4_fragment_count_and_labels (List.replicate 20 'A') (by decide) (by decide)

/-- C5: for every sequence over the 20-symbol alphabet, each residue is
assigned the label whose propensity score in the residue's fixed triple
is strictly greatest; since every residue's scores are pairwise distinct
(`distinctScores`), the Helix > Strand > Coil tie-break clause never
fires and is vacuously honoured.  In particular symbol `A`, whose triple
is (H=1.42, E=0.83, C=0.80), is classified Helix. -/
theorem C5_classifier :
    (∀ s : List Char, s.all isResidue = true →
      ∃ labs, predictSecondaryStructure s = some labs ∧ labs.length = s.length ∧
        ∀ (k : Nat) (hk : k < s.length) (hl : k < labs.length),
          ∃ p, propensities (s.get ⟨k, hk⟩) = some p ∧ distinctScores p ∧
            strictlyGreatest p (labs.get ⟨k, hl⟩)) ∧
    propensities 'A' = some ⟨1.42, 0.83, 0.80⟩ ∧ classifyChar 'A' = some 'H' := by
  refine ⟨?_, rfl, by norm_num [classifyChar, propensities]⟩
  intro s
  induction s with
  | nil =>
      intro _
      exact ⟨[], rfl, rfl, fun k hk => absurd hk (Nat.not_lt_zero k)⟩
  | cons c rest ih =>
      intro hall
      simp only [List.all_cons, Bool.and_eq_true] at hall
      obtain ⟨p, l, hp, hl, hd, hs⟩ := residue_classifyChar c hall.1
      obtain ⟨labs, hlabs, hlen, hpos⟩ := ih hall.2
      refine ⟨l :: labs, ?_, ?_, ?_⟩
      · simp [predictSecondaryStructure, hl, hlabs]
      · simp [hlen]
      · intro k hk hkl
        cases k with
        | zero => exact ⟨p, hp, hd, hs⟩
        | succ k2 =>
            have h1 : k2 < rest.length := by simpa using hk
            have h2 : k2 < labs.length := by omega
            exact hpos k2 h1 h2

/-- Witness for C5 at the concrete sequence `['A', 'G']`. -/
theorem C5_classifier_witness :
    ∃ labs, predictSecondaryStructure ['A', 'G'] = some labs ∧
      labs.length = (['A', 'G'] : List Char).length ∧
      ∀ (k : Nat) (hk : k < (['A', 'G'] : List Char).length) (hl : k < labs.length),
        ∃ p, propensities ((['A', 'G'] : List Char).get ⟨k, hk⟩) = some p ∧
          distinctScores p ∧ strictlyGreatest p (labs.get ⟨k, hl⟩) :=
  C5_classifier.1 ['A', 'G'] (by decide)

/-! ## The molecular-weight function -/

theorem mass_isSome_eq_isResidue (c : Char) :
    (molecularWeights c).isSome = isResidue c := by
  rw [molecularWeights.eq_def]
  split
  case _ => rfl
  case _ => rfl
  case _ => rfl
  case _ => rfl
  case _ => rfl
  case _ => rfl
  case _ => rfl
  case _ => rfl
  case _ => rfl
  case _ => rfl
  case _ => rfl
  case _ => rfl
  case _ => rfl
  case _ => rfl
  case _ => rfl
  case _ => rfl
  case _ => rfl
  case _ => rfl
  case _ => rfl
  case _ => rfl
  case _ => simp_all [isResidue, residueAlphabet]

theorem foldl_mwStep_none : ∀ s : List Char, s.foldl mwStep none = none := by
  intro s
  induction s with
  | nil => rfl
  | cons c rest ih =>
      rw [List.foldl_cons]
      exact ih

theorem foldl_mwStep_some (s : List Char) :
    ∀ a : ℚ, s.foldl mwStep (some a) =
      if s.all (fun c => (molecularWeights c).isSome) = true
      then some (a + residueMassSum s) else none := by
  induction s with
  | nil =>
      intro a
      simp [residueMassSum]
  | cons c rest ih =>
      intro a
      rw [List.foldl_cons]
      cases hm : molecularWeights c with
      | none =>
          have hstep : mwStep (some a) c = none := by simp [mwStep, hm]
          rw [hstep, foldl_mwStep_none]
          simp [hm]
      | some w =>
          have hstep : mwStep (some a) c = some (a + w) := by simp [mwStep, hm]
          rw [hstep, ih (a + w)]
          by_cases hall : rest.all (fun c => (molecularWeights c).isSome) = true
          · rw [if_pos hall, if_pos (by simp [hm, hall])]
            simp [residueMassSum, hm, add_assoc]
          · rw [if_neg hall, if_neg (by simp [hm, hall])]

/-- C10: `calculateMolecularWeight` is total over arbitrary strings (it
is a Lean function, so it never throws): over the 20-residue alphabet it
returns the sum of the fixed per-residue masses, any string containing a
symbol outside the alphabet silently yields `none` (the JavaScript `NaN`)
instead of an error, and the empty string yields 0. -/
theorem C10_molecularWeight (s : List Char) :
    (s.all isResidue = true → calculateMolecularWeight s = some (residueMassSum s)) ∧
    (s.all isResidue = false → calculateMolecularWeight s = none) ∧
    calculateMolecularWeight ([] : List Char) = some 0 := by
  have hiff : s.all (fun c => (molecularWeights c).isSome) = s.all isResidue := by
    induction s with
    | nil => rfl
    | cons c rest ih => simp [List.all_cons, mass_isSome_eq_isResidue, ih]
  refine ⟨?_, ?_, rfl⟩
  · intro h
    unfold calculateMolecularWeight
    rw [foldl_mwStep_some s 0, hiff, h, if_pos rfl]
    norm_num
  · intro h
    unfold calculateMolecularWeight
    rw [foldl_mwStep_some s 0, hiff, h]
    simp

/-- Witness for C10: an alphabet-only string sums its masses; a string
with the out-of-alphabet symbol `Z` yields `none`. -/
theorem C10_molecularWeight_witness :
    calculateMolecularWeight ['A', 'G'] = some (residueMassSum ['A', 'G']) ∧
    calculateMolecularWeight ['A', 'Z', 'G'] = none :=
  ⟨(C10_molecularWeight ['A', 'G']).1 (by decide),
   (C10_molecularWeight ['A', 'Z', 'G']).2.1 (by decide)⟩

/-! ## The motif scanner: leftmost matching -/

theorem scanPositions_none (m : List Char → Nat → Option Nat) (s : List Char) :
    ∀ ps, scanPositions m s ps = none → ∀ p ∈ ps, m s p = none := by
  intro ps
  induction ps with
  | nil =>
      intro _ p hp
      simp at hp
  | cons q rest ih =>
      intro h p hp
      simp only [scanPositions] at h
      cases hm : m s q with
      | some l =>
          rw [hm] at h
          simp at h
      | none =>
          rw [hm] at h
          rcases List.mem_cons.mp hp with rfl | hp2
          · exact hm
          · exact ih h p hp2

theorem scanPositions_append (m : List Char → Nat → Option Nat) (s : List Char)
    (ps1 ps2 : List Nat) :
    scanPositions m s (ps1 ++ ps2) =
      match scanPositions m s ps1 with
      | some r => some r
      | none => scanPositions m s ps2 := by
  induction ps1 with
  | nil => simp [scanPositions]
  | cons q rest ih =>
      simp only [List.cons_append, scanPositions]
      cases m s q with
      | some l => rfl
      | none => exact ih

theorem scanPositions_range_spec (m : List Char → Nat → Option Nat) (s : List Char) :
    ∀ n i l, scanPositions m s (List.range n) = some (i, l) →
      m s i = some l ∧ i < n ∧ ∀ j < i, m s j = none := by
  intro n
  induction n with
  | zero =>
      intro i l h
      simp [scanPositions] at h
  | succ n ih =>
      intro i l h
      rw [List.range_succ, scanPositions_append] at h
      cases hs : scanPositions m s (List.range n) with
      | some r =>
          rw [hs] at h
          simp only [Option.some.injEq] at h
          subst h
          obtain ⟨h1, h2, h3⟩ := ih i l hs
          exact ⟨h1, by omega, h3⟩
      | none =>
          rw [hs] at h
          have hall := scanPositions_none m s (List.range n) hs
          simp only [scanPositions] at h
          cases hm : m s n with
          | none =>
              rw [hm] at h
              simp [scanPositions] at h
          | some l2 =>
              rw [hm] at h
              simp only [Option.some.injEq, Prod.mk.injEq] at h
              obtain ⟨rfl, rfl⟩ := h
              refine ⟨hm, Nat.lt_succ_self _, ?_⟩
              intro j hj
              exact hall j (List.mem_range.mpr hj)

theorem firstMatch_spec (m : List Char → Nat → Option Nat) (s : List Char)
    (i l : Nat) (h : firstMatch m s = some (i, l)) :
    m s i = some l ∧ i < s.length ∧ ∀ j < i, m s j = none :=
  scanPositions_range_spec m s s.length i l h

theorem matchNGlycAt_bounds (s : List Char) (p l : Nat)
    (h : matchNGlycAt s p = some l) : 2 ≤ l ∧ p + l ≤ s.length := by
  unfold matchNGlycAt at h
  split at h
  · rename_i c0 c1 c2 c3 h0 h1 h2 h3
    split at h
    · simp only [Option.some.injEq] at h
      have h4 := (List.get?_eq_some.mp h3).1
      omega
    · simp at h
  · simp at h

theorem matchCK2At_bounds (s : List Char) (p l : Nat)
    (h : matchCK2At s p = some l) : 2 ≤ l ∧ p + l ≤ s.length := by
  unfold matchCK2At at h
  split at h
  · rename_i c0 c1 c2 c3 h0 h1 h2 h3
    split at h
    · simp only [Option.some.injEq] at h
      have h4 := (List.get?_eq_some.mp h3).1
      omega
    · simp at h
  · simp at h

theorem option_any_isDE_lt (s : List Char) (k : Nat)
    (h : (s.get? k).any isDE = true) : k < s.length := by
  cases hk : s.get? k with
  | none => rw [hk] at h; simp [Option.any] at h
  | some c => exact (List.get?_eq_some.mp hk).1

theorem matchTKAt_bounds (s : List Char) (p l : Nat)
    (h : matchTKAt s p = some l) : 2 ≤ l ∧ p + l ≤ s.length := by
  unfold matchTKAt at h
  split at h
  · simp at h
  · rename_i c0 h0
    split at h
    · split at h
      · rename_i h3
        simp only [Option.some.injEq] at h
        have h4 := option_any_isDE_lt s (p + 3) h3
        omega
      · split at h
        · rename_i h3
          simp only [Option.some.injEq] at h
          have h4 := option_any_isDE_lt s (p + 2) h3
          omega
        · split at h
          · rename_i h3
            simp only [Option.some.injEq] at h
            have h4 := option_any_isDE_lt s (p + 1) h3
            omega
          · simp at h
    · simp at h

theorem motifCatalog_bounds :
    ∀ nm ∈ motifCatalog, ∀ (s : List Char) (p l : Nat),
      nm.2 s p = some l → 2 ≤ l ∧ p + l ≤ s.length := by
  intro nm hnm
  simp only [motifCatalog, List.mem_cons, List.not_mem_nil, or_false] at hnm
  rcases hnm with rfl | rfl | rfl
  · exact matchNGlycAt_bounds
  · exact matchCK2At_bounds
  · exact matchTKAt_bounds

/-! ## The motif scanner: persistence -/

theorem insertMatch_motifs (oracle : Nat → Bool) (frag : List Char) (fid : Nat)
    (name : String) (il : Nat × Nat) (st : PoolState) :
    ((insertMatch oracle frag fid name il st).2).buffer.motifs = st.buffer.motifs ∨
    ∃ q, confidenceTotal frag = some q ∧
      ((insertMatch oracle frag fid name il st).2).buffer.motifs
        = st.buffer.motifs ++
          [⟨st.buffer.nextId, fid, (frag.drop il.1).take il.2, name,
            il.1, il.1 + il.2, q⟩] := by
  unfold insertMatch
  cases hc : confidenceTotal frag with
  | none => exact Or.inl rfl
  | some q =>
      unfold insertMotif dbOp
      dsimp only
      by_cases ho : oracle st.opCount = true
      · left
        rw [if_pos ho]
      · right
        refine ⟨q, rfl, ?_⟩
        rw [if_neg ho]

theorem identifyMotifsOver_motifs (oracle : Nat → Bool) (frag : List Char) (fid : Nat) :
    ∀ (cat : List (String × (List Char → Nat → Option Nat))) (st : PoolState)
      (r : MotifRow),
      r ∈ (((identifyMotifsOver oracle frag fid cat) st).2).buffer.motifs →
      r ∈ st.buffer.motifs ∨
      ∃ q, confidenceTotal frag = some q ∧
      ∃ nm ∈ cat, ∃ il, firstMatch nm.2 frag = some il ∧
        r.fragment_id = fid ∧ r.motif_type = nm.1 ∧
        r.motif_pattern = (frag.drop il.1).take il.2 ∧
        r.start_position = il.1 ∧ r.end_position = il.1 + il.2 ∧
        r.confidence_score = q := by
  intro cat
  induction cat with
  | nil =>
      intro st r hr
      exact Or.inl hr
  | cons nm rest ih =>
      intro st r hr
      unfold identifyMotifsOver at hr
      rw [run_bind] at hr
      cases hfm : firstMatch nm.2 frag with
      | none =>
          rw [hfm] at hr
          dsimp only at hr
          rcases ih st r hr with h | ⟨q, hq, nm2, hnm2, il2, hfm2, hfields⟩
          · exact Or.inl h
          · exact Or.inr ⟨q, hq, nm2, List.mem_cons_of_mem nm hnm2, il2, hfm2, hfields⟩
      | some il =>
          rw [hfm] at hr
          dsimp only at hr
          rcases hrun : insertMatch oracle frag fid nm.1 il st with ⟨rr, st1⟩
          rw [hrun] at hr
          have hmot := insertMatch_motifs oracle frag fid nm.1 il st
          rw [hrun] at hmot
          have hstep : ∀ r2 : MotifRow, r2 ∈ st1.buffer.motifs →
              r2 ∈ st.buffer.motifs ∨
              ∃ q, confidenceTotal frag = some q ∧
              ∃ nm2 ∈ nm :: rest, ∃ il2, firstMatch nm2.2 frag = some il2 ∧
                r2.fragment_id = fid ∧ r2.motif_type = nm2.1 ∧
                r2.motif_pattern = (frag.drop il2.1).take il2.2 ∧
                r2.start_position = il2.1 ∧ r2.end_position = il2.1 + il2.2 ∧
                r2.confidence_score = q := by
            intro r2 hr2
            rcases hmot with h1 | ⟨q, hq, h1⟩
            · rw [h1] at hr2
              exact Or.inl hr2
            · rw [h1] at hr2
              rcases List.mem_append.mp hr2 with h2 | h2
              · exact Or.inl h2
              · simp only [List.mem_singleton] at h2
                subst h2
                exact Or.inr ⟨q, hq, nm, List.mem_cons_self nm rest, il, hfm,
                  rfl, rfl, rfl, rfl, rfl, rfl⟩
          cases rr with
          | error e =>
              dsimp only at hr
              exact hstep r hr
          | ok u =>
              dsimp only at hr
              rcases ih st1 r hr with h | ⟨q, hq, nm2, hnm2, il2, hfm2, hfields⟩
              · exact hstep r h
              · exact Or.inr ⟨q, hq, nm2, List.mem_cons_of_mem nm hnm2, il2, hfm2, hfields⟩

theorem identifyMotifsOver_nomatch (oracle : Nat → Bool) (frag : List Char) (fid : Nat) :
    ∀ cat, (∀ nm ∈ cat, firstMatch nm.2 frag = none) →
      ∀ st, identifyMotifsOver oracle frag fid cat st = (Except.ok (), st) := by
  intro cat
  induction cat with
  | nil => intro _ st; rfl
  | cons nm rest ih =>
      intro hall st
      unfold identifyMotifsOver
      rw [run_bind]
      rw [hall nm (List.mem_cons_self nm rest)]
      dsimp only
      exact ih (fun nm2 h2 => hall nm2 (List.mem_cons_of_mem nm h2)) st

theorem insertMatch_count (oracle : Nat → Bool) (frag : List Char) (fid : Nat)
    (name : String) (il : Nat × Nat) (st : PoolState) :
    (((insertMatch oracle frag fid name il st).2).buffer.motifs).length
      ≤ (st.buffer.motifs).length + 1 := by
  rcases insertMatch_motifs oracle frag fid name il st with h | ⟨q, _, h⟩ <;>
    rw [h] <;> simp

theorem identifyMotifsOver_count (oracle : Nat → Bool) (frag : List Char) (fid : Nat) :
    ∀ (cat : List (String × (List Char → Nat → Option Nat))) (st : PoolState),
      ((((identifyMotifsOver oracle frag fid cat) st).2).buffer.motifs).length
        ≤ (st.buffer.motifs).length + cat.length := by
  intro cat
  induction cat with
  | nil =>
      intro st
      exact Nat.le_refl _
  | cons nm rest ih =>
      intro st
      unfold identifyMotifsOver
      rw [run_bind]
      cases hfm : firstMatch nm.2 frag with
      | none =>
          dsimp only
          have h1 := ih st
          simp only [List.length_cons]
          omega
      | some il =>
          dsimp only
          rcases hrun : insertMatch oracle frag fid nm.1 il st with ⟨rr, st1⟩
          have hcount := insertMatch_count oracle frag fid nm.1 il st
          rw [hrun] at hcount
          dsimp only at hcount
          cases rr with
          | error e =>
              dsimp only
              simp only [List.length_cons]
              omega
          | ok u =>
              dsimp only
              have h1 := ih st1
              simp only [List.length_cons]
              omega

/-- C7: every catalog pattern contributes at most one match per fragment,
namely the first occurrence; a fragment yields at most three motif rows;
and a fragment matching no catalog pattern yields zero matches and no
error — the scanner returns success with the pool untouched. -/
theorem C7_first_occurrence_and_bounds :
    (∀ frag : List Char, (motifMatches frag).length ≤ 3) ∧
    (∀ frag : List Char, ∀ nm ∈ motifCatalog, ∀ i l : Nat,
      firstMatch nm.2 frag = some (i, l) →
      nm.2 frag i = some l ∧ ∀ j < i, nm.2 frag j = none) ∧
    (∀ (oracle : Nat → Bool) (frag : List Char) (fid : Nat) (st : PoolState),
      (((identifyMotifs oracle frag fid st).2).buffer.motifs).length
        ≤ (st.buffer.motifs).length + 3) ∧
    (∀ (oracle : Nat → Bool) (frag : List Char) (fid : Nat) (st : PoolState),
      (∀ nm ∈ motifCatalog, firstMatch nm.2 frag = none) →
      identifyMotifs oracle frag fid st = (Except.ok (), st) ∧
      motifMatches frag = []) := by
  refine ⟨?_, ?_, ?_, ?_⟩
  · intro frag
    exact List.length_filterMap_le _ _
  · intro frag nm hnm i l h
    obtain ⟨h1, _, h3⟩ := firstMatch_spec nm.2 frag i l h
    exact ⟨h1, h3⟩
  · intro oracle frag fid st
    exact identifyMotifsOver_count oracle frag fid motifCatalog st
  · intro oracle frag fid st hnone
    refine ⟨identifyMotifsOver_nomatch oracle frag fid motifCatalog hnone st, ?_⟩
    unfold motifMatches
    apply List.filterMap_eq_nil_iff.mpr
    intro nm hnm
    rw [hnone nm hnm]
    rfl

/-- Witness for C7: an all-glycine fragment matches no pattern; the
scanner succeeds, records nothing and leaves the pool untouched. -/
theorem C7_first_occurrence_and_bounds_witness :
    identifyMotifs (fun _ => false) (List.replicate 15 'G') 1 (PoolState.init DB.empty)
      = (Except.ok (), PoolState.init DB.empty) ∧
    motifMatches (List.replicate 15 'G') = [] :=
  C7_first_occurrence_and_bounds.2.2.2 (fun _ => false) (List.replicate 15 'G') 1
    (PoolState.init DB.empty) (by decide)

/-! ## The confidence scorer -/

theorem sortDesc_sorted (l : List ℚ) : (sortDesc l).Sorted (fun a b => b ≤ a) :=
  List.sorted_insertionSort _ l

theorem sortDesc_perm (l : List ℚ) : (sortDesc l).Perm l :=
  List.perm_insertionSort _ l

theorem marginOfTriple_nonneg (p : Prop3) : 0 ≤ marginOfTriple p := by
  show 0 ≤ (sortDesc [p.h, p.e, p.c]).getD 0 0 - (sortDesc [p.h, p.e, p.c]).getD 1 0
  have hs := sortDesc_sorted [p.h, p.e, p.c]
  have hlen : (sortDesc [p.h, p.e, p.c]).length = 3 :=
    (sortDesc_perm [p.h, p.e, p.c]).length_eq
  rcases hsd : sortDesc [p.h, p.e, p.c] with _ | ⟨a, _ | ⟨b, t⟩⟩
  · rw [hsd] at hlen
    simp at hlen
  · rw [hsd] at hlen
    simp at hlen
  · rw [hsd] at hs
    have hba : b ≤ a := List.rel_of_sorted_cons hs b (by simp)
    simp only [List.getD_cons_zero, List.getD_cons_succ]
    linarith

theorem calculateConfidenceScore_spec :
    ∀ (s : List Char) (ms : List ℚ), calculateConfidenceScore s = some ms →
      ms.length = s.length ∧
      ∀ (k : Nat) (hk : k < s.length) (hm : k < ms.length),
        ∃ p, propensities (s.get ⟨k, hk⟩) = some p ∧
          ms.get ⟨k, hm⟩ = marginOfTriple p := by
  intro s
  induction s with
  | nil =>
      intro ms h
      simp only [calculateConfidenceScore, Option.some.injEq] at h
      subst h
      exact ⟨rfl, fun k hk => absurd hk (Nat.not_lt_zero k)⟩
  | cons c rest ih =>
      intro ms h
      simp only [calculateConfidenceScore] at h
      cases hp : propensities c with
      | none => rw [hp] at h; simp at h
      | some p =>
          rw [hp] at h
          cases hr : calculateConfidenceScore rest with
          | none => rw [hr] at h; simp at h
          | some ms2 =>
              rw [hr] at h
              simp at h
              obtain ⟨hlen, hpos⟩ := ih ms2 hr
              rw [← h]
              refine ⟨by simp [hlen], ?_⟩
              intro k hk hm
              cases k with
              | zero => exact ⟨p, hp, rfl⟩
              | succ k2 =>
                  have h1 : k2 < rest.length := by simpa using hk
                  have h2 : k2 < ms2.length := by omega
                  exact hpos k2 h1 h2

theorem calculateConfidenceScore_isSome :
    ∀ s : List Char, s.all isResidue = true →
      ∃ ms, calculateConfidenceScore s = some ms := by
  intro s
  induction s with
  | nil => exact fun _ => ⟨[], rfl⟩
  | cons c rest ih =>
      intro h
      simp only [List.all_cons, Bool.and_eq_true] at h
      obtain ⟨p, l, hp, _, _, _⟩ := residue_classifyChar c h.1
      obtain ⟨ms, hms⟩ := ih h.2
      exact ⟨marginOfTriple p :: ms, by simp [calculateConfidenceScore, hp, hms]⟩

/-- C6: a persisted motif match's confidence equals the arithmetic mean,
over all residues of the containing fragment (not just the matched
substring), of the per-residue margin `sorted[0] - sorted[1]` from the
descending sort of the residue's propensity triple; `sortDesc` really
sorts (descending-ordered permutation of the triple), so the margin is
top1 - top2 and is nonnegative. -/
theorem C6_confidence_mean (frag : List Char) (hres : frag.all isResidue = true) :
    ∃ ms q, calculateConfidenceScore frag = some ms ∧
      confidenceTotal frag = some q ∧
      ms.length = frag.length ∧
      q = ms.sum / (frag.length : ℚ) ∧
      (∀ m ∈ ms, 0 ≤ m) ∧
      (∀ (k : Nat) (hk : k < frag.length) (hm : k < ms.length),
        ∃ p, propensities (frag.get ⟨k, hk⟩) = some p ∧
          ms.get ⟨k, hm⟩ = marginOfTriple p) ∧
      (∀ p : Prop3,
        (sortDesc [p.h, p.e, p.c]).Sorted (fun a b => b ≤ a) ∧
        (sortDesc [p.h, p.e, p.c]).Perm [p.h, p.e, p.c]) ∧
      (∀ (oracle : Nat → Bool) (fid : Nat) (st : PoolState) (r : MotifRow),
        r ∈ ((identifyMotifs oracle frag fid st).2).buffer.motifs →
        r ∉ st.buffer.motifs → r.confidence_score = q) := by
  obtain ⟨ms, hms⟩ := calculateConfidenceScore_isSome frag hres
  obtain ⟨hlen, hpos⟩ := calculateConfidenceScore_spec frag ms hms
  have hq : confidenceTotal frag = some (ms.sum / (frag.length : ℚ)) := by
    simp [confidenceTotal, hms, hlen]
  refine ⟨ms, ms.sum / (frag.length : ℚ), hms, hq, hlen, rfl, ?_, hpos, ?_, ?_⟩
  · intro m hm
    obtain ⟨⟨k, hkm⟩, hget⟩ := List.mem_iff_get.mp hm
    have hk : k < frag.length := by omega
    obtain ⟨p, _, hmp⟩ := hpos k hk hkm
    rw [← hget, hmp]
    exact marginOfTriple_nonneg p
  · exact fun p => ⟨sortDesc_sorted _, sortDesc_perm _⟩
  · intro oracle fid st r hr hnew
    rcases identifyMotifsOver_motifs oracle frag fid motifCatalog st r hr with
      h | ⟨q2, hq2, nm, hnm, il, hfm, _, _, _, _, _, hconf⟩
    · exact absurd h hnew
    · have hq2q : q2 = ms.sum / (frag.length : ℚ) := by
        have h2 := hq2.symm.trans hq
        simpa using h2
      rw [hconf, hq2q]

/-- Witness for C6 at the concrete fragment `"NASA"`. -/
theorem C6_confidence_mean_witness :
    ∃ ms q, calculateConfidenceScore ['N', 'A', 'S', 'A'] = some ms ∧
      confidenceTotal ['N', 'A', 'S', 'A'] = some q ∧
      ms.length = (['N', 'A', 'S', 'A'] : List Char).length ∧
      q = ms.sum / ((['N', 'A', 'S', 'A'] : List Char).length : ℚ) ∧
      (∀ m ∈ ms, 0 ≤ m) ∧
      (∀ (k : Nat) (hk : k < (['N', 'A', 'S', 'A'] : List Char).length)
        (hm : k < ms.length),
        ∃ p, propensities ((['N', 'A', 'S', 'A'] : List Char).get ⟨k, hk⟩) = some p ∧
          ms.get ⟨k, hm⟩ = marginOfTriple p) ∧
      (∀ p : Prop3,
        (sortDesc [p.h, p.e, p.c]).Sorted (fun a b => b ≤ a) ∧
        (sortDesc [p.h, p.e, p.c]).Perm [p.h, p.e, p.c]) ∧
      (∀ (oracle : Nat → Bool) (fid : Nat) (st : PoolState) (r : MotifRow),
        r ∈ ((identifyMotifs oracle ['N', 'A', 'S', 'A'] fid st).2).buffer.motifs →
        r ∉ st.buffer.motifs → r.confidence_score = q) :=
  C6_confidence_mean ['N', 'A', 'S', 'A'] (by decide)

/-! ## Motif match coordinates -/

/-- C1 (amended): every motif match the scanner persists carries
fragment-relative coordinates: the stored start equals the in-fragment
offset of the pattern's first occurrence (the scanner is never given the
fragment's absolute offset, so nothing is added to it), the stored end
is start + matched length, and 0 ≤ start < end ≤ fragment length. -/
theorem C1_relative_coordinates (oracle : Nat → Bool) (frag : List Char) (fid : Nat)
    (st : PoolState) (r : MotifRow)
    (hr : r ∈ ((identifyMotifs oracle frag fid st).2).buffer.motifs)
    (hnew : r ∉ st.buffer.motifs) :
    ∃ nm ∈ motifCatalog, ∃ i l : Nat,
      firstMatch nm.2 frag = some (i, l) ∧
      nm.2 frag i = some l ∧ (∀ j < i, nm.2 frag j = none) ∧
      r.fragment_id = fid ∧ r.motif_type = nm.1 ∧
      r.start_position = i ∧ r.end_position = i + l ∧
      r.start_position < r.end_position ∧ r.end_position ≤ frag.length := by
  rcases identifyMotifsOver_motifs oracle frag fid motifCatalog st r hr with
    h | ⟨q, hq, nm, hnm, il, hfm, hfid, htype, hpat, hstart, hend, hconf⟩
  · exact absurd h hnew
  · rcases il with ⟨i, l⟩
    obtain ⟨hm, hlt, hfirst⟩ := firstMatch_spec nm.2 frag i l hfm
    obtain ⟨hl2, hbound⟩ := motifCatalog_bounds nm hnm frag i l hm
    exact ⟨nm, hnm, i, l, hfm, hm, hfirst, hfid, htype, hstart, hend,
      by omega, by omega⟩

/-- Witness for the amended C1: the row persisted for `c1Frag` under
fragment id 3. -/
theorem C1_relative_coordinates_witness :
    ∃ nm ∈ motifCatalog, ∃ i l : Nat,
      firstMatch nm.2 c1Frag = some (i, l) ∧
      nm.2 c1Frag i = some l ∧ (∀ j < i, nm.2 c1Frag j = none) ∧
      c1Row.fragment_id = 3 ∧ c1Row.motif_type = nm.1 ∧
      c1Row.start_position = i ∧ c1Row.end_position = i + l ∧
      c1Row.start_position < c1Row.end_position ∧
      c1Row.end_position ≤ c1Frag.length :=
  C1_relative_coordinates (fun _ => false) c1Frag 3 (PoolState.init DB.empty)
    c1Row (List.get_mem _ _ _) (List.not_mem_nil _)

/-- Counterexample to C1 as stated: in the 20-residue sequence
`GGGGGNASAGGGGGGGGGGG` the fragmenter produces a fragment at absolute
offset 5 whose `NASA` motif matches at in-fragment offset 0; the
persisted row stores start 0 and end 4 — the raw in-fragment
coordinates — although the claim demands start = 5 + 0 = 5 with both
ends inside `[5, 20)`. -/
theorem C1_counterexample :
    (fragmentsOf ("GGGGGNASAGGGGGGGGGGG".toList)).map Prod.fst = [0, 5] ∧
    fragmentAt ("GGGGGNASAGGGGGGGGGGG".toList) 5 = c1Frag ∧
    (c1Run.buffer.motifs.map fun m =>
      (m.fragment_id, m.motif_type, m.start_position, m.end_position))
      = [(3, "N-glycosylation site", 0, 4)] ∧
    ¬(5 ≤ (0 : Nat)) ∧ (0 : Nat) ≠ 5 + 0 := by
  refine ⟨by decide, by decide, by decide, by omega, by omega⟩

/-! ## Input validation in the route handlers -/

/-- Counterexample to C8 as stated: on `POST /api/proteins` a request
whose 20-symbol sequence contains the out-of-alphabet symbol `Z` but
whose `name` field is absent is rejected by the `TypeError` thrown when
`name.length` is read on `undefined` — not as InvalidInput
(BadRequest).  (No storage operation happens either way.) -/
theorem C8_counterexample :
    postProteins (fun _ => false) "generated"
      ('Z' :: List.replicate 19 'G') none none (PoolState.init DB.empty)
      = (Except.error Err.typeError, PoolState.init DB.empty) ∧
    Err.typeError ≠ Err.badRequest :=
  ⟨rfl, by decide⟩

/-- C8 (amended): every annotation request whose sequence contains a
symbol outside the 20-residue alphabet or whose length lies outside
[20, 2000] is rejected synchronously before any transaction is opened,
with the pool state returned untouched, so no storage operation of any
kind occurs.  On `POST /api/proteins/sequence` the rejection is always
InvalidInput (BadRequest); on `POST /api/proteins` it is BadRequest
except when the `name` field is absent while the length is within
bounds, in which case a TypeError surfaces instead (still before any
transaction). -/
theorem C8_validation_before_transaction (oracle : Nat → Bool) (genName : String)
    (s : List Char) (st : PoolState)
    (hbad : s.length < 20 ∨ 2000 < s.length ∨ s.all isResidue = false) :
    postProteinsSequence oracle genName s st = (Except.error Err.badRequest, st) ∧
    ∀ name descr : Option String,
      ∃ e, postProteins oracle genName s name descr st = (Except.error e, st) ∧
        (e = Err.badRequest ∨ e = Err.typeError) ∧
        (e = Err.typeError → name = none ∧ 20 ≤ s.length ∧ s.length ≤ 2000) := by
  constructor
  · have hcond : (s.isEmpty || decide (2000 < s.length) || decide (s.length < 20)
        || !(s.all isResidue)) = true := by
      rcases hbad with h | h | h
      · simp [h]
      · simp [h]
      · simp [h]
    unfold postProteinsSequence
    rw [if_pos hcond]
  · intro name descr
    by_cases h1 : 2000 < s.length
    · exact ⟨Err.badRequest, by simp [postProteins, h1], Or.inl rfl, by simp⟩
    · by_cases h2 : s.length < 20
      · exact ⟨Err.badRequest, by simp [postProteins, h1, h2], Or.inl rfl, by simp⟩
      · have h3 : s.all isResidue = false := by
          rcases hbad with h | h | h
          · exact absurd h h2
          · exact absurd h h1
          · exact h
        cases name with
        | none =>
            refine ⟨Err.typeError, ?_, Or.inr rfl, fun _ => ⟨rfl, by omega, by omega⟩⟩
            simp [postProteins, h1, h2]
        | some nm =>
            refine ⟨Err.badRequest, ?_, Or.inl rfl, by simp⟩
            simp [postProteins, h1, h2, h3]

/-- Witness for the amended C8: a 5-residue sequence (too short) is
rejected by both routes with the pool untouched. -/
theorem C8_validation_before_transaction_witness :
    postProteinsSequence (fun _ => false) "generated" (List.replicate 5 'A')
      (PoolState.init DB.empty)
      = (Except.error Err.badRequest, PoolState.init DB.empty) ∧
    ∀ name descr : Option String,
      ∃ e, postProteins (fun _ => false) "generated" (List.replicate 5 'A')
          name descr (PoolState.init DB.empty)
        = (Except.error e, PoolState.init DB.empty) ∧
        (e = Err.badRequest ∨ e = Err.typeError) ∧
        (e = Err.typeError → name = none ∧
          20 ≤ (List.replicate 5 'A' : List Char).length ∧
          (List.replicate 5 'A' : List Char).length ≤ 2000) :=
  C8_validation_before_transaction (fun _ => false) "generated"
    (List.replicate 5 'A') (PoolState.init DB.empty) (Or.inl (by decide))

/-! ## The download reconstruction -/

theorem fragmentAt_drop10 (s : List Char) (i : Nat) :
    (fragmentAt s i).drop 10 = (s.drop (i + 10)).take 5 := by
  unfold fragmentAt
  rw [List.drop_take, List.drop_drop]

theorem flattenPieces (s : List Char) :
    ∀ d i, s.length - i ≤ d → i + 15 ≤ s.length →
      ((windowStarts s.length i).map fun j => (fragmentAt s j).drop 10).flatten
        = (s.drop (i + 10)).take (5 * ((s.length - 15 - i) / 5 + 1)) := by
  intro d
  induction d with
  | zero =>
      intro i h1 h2
      exact absurd h2 (by omega)
  | succ d ih =>
      intro i h1 h2
      rw [windowStarts_eq, if_pos h2, List.map_cons, List.flatten_cons,
        fragmentAt_drop10]
      by_cases h3 : i + 5 + 15 ≤ s.length
      · rw [ih (i + 5) (by omega) h3]
        have h5 : (s.length - 15 - i) / 5 = (s.length - 15 - (i + 5)) / 5 + 1 := by
          have h4 : s.length - 15 - i = (s.length - 15 - (i + 5)) + 5 := by omega
          rw [h4, Nat.add_div_right _ (by norm_num)]
        rw [h5]
        have h6 : 5 * ((s.length - 15 - (i + 5)) / 5 + 1 + 1)
            = 5 + 5 * ((s.length - 15 - (i + 5)) / 5 + 1) := by ring
        rw [h6, List.take_add]
        congr 1
        rw [List.drop_drop]
      · rw [windowStarts_nil _ _ (by omega)]
        have h4 : (s.length - 15 - i) / 5 = 0 := Nat.div_eq_of_lt (by omega)
        rw [h4]
        simp

/-- C9: reconstructing a persisted sequence of length `L ≥ 15` the way
the download route does — the first fragment's full residues followed by
`substring(10)` of each later fragment, in ascending start order —
yields the first `L - (L - 15) % 5` residues of the original, so it
equals the original exactly when `(L - 15) % 5 = 0`; otherwise the final
`(L - 15) % 5` residues are missing. -/
theorem C9_download_reconstruction (s : List Char) (h : 15 ≤ s.length) :
    downloadReconstruct s = s.take (s.length - (s.length - 15) % 5) ∧
    (downloadReconstruct s = s ↔ (s.length - 15) % 5 = 0) := by
  have hsnd : (fragmentsOf s).map Prod.snd
      = (windowStarts s.length 0).map (fragmentAt s) := by
    unfold fragmentsOf
    rw [List.map_map]
    rfl
  have hmain : downloadReconstruct s = s.take (s.length - (s.length - 15) % 5) := by
    unfold downloadReconstruct
    rw [hsnd, windowStarts_eq, if_pos (by omega : 0 + 15 ≤ s.length), List.map_cons]
    show fragmentAt s 0 ++
        (((windowStarts s.length (0 + 5)).map (fragmentAt s)).map
          fun g => g.drop 10).flatten = _
    rw [List.map_map]
    have hcomp : ((fun g : List Char => g.drop 10) ∘ fragmentAt s)
        = fun j => (fragmentAt s j).drop 10 := rfl
    rw [hcomp]
    have hfrag0 : fragmentAt s 0 = s.take 15 := by
      unfold fragmentAt
      rw [List.drop_zero]
    by_cases h5 : 0 + 5 + 15 ≤ s.length
    · rw [flattenPieces s s.length (0 + 5) (by omega) h5, hfrag0]
      have hd : s.drop (0 + 5 + 10) = s.drop 15 := by norm_num
      rw [hd, ← List.take_add]
      congr 1
      omega
    · rw [windowStarts_nil _ _ (by omega)]
      simp only [List.map_nil, List.flatten_nil, List.append_nil]
      rw [hfrag0]
      congr 1
      omega
  refine ⟨hmain, ?_⟩
  rw [hmain]
  constructor
  · intro he
    have hl := congrArg List.length he
    rw [List.length_take] at hl
    have hm : (s.length - 15) % 5 < 5 := Nat.mod_lt _ (by norm_num)
    omega
  · intro he
    rw [he, Nat.sub_zero, List.take_length]

/-- Witness for C9: a length-20 sequence ((20-15) % 5 = 0) reconstructs
exactly. -/
theorem C9_download_reconstruction_witness :
    downloadReconstruct (List.replicate 20 'A')
      = (List.replicate 20 'A' : List Char).take
          ((List.replicate 20 'A' : List Char).length
            - ((List.replicate 20 'A' : List Char).length - 15) % 5) ∧
    (downloadReconstruct (List.replicate 20 'A') = List.replicate 20 'A'
      ↔ ((List.replicate 20 'A' : List Char).length - 15) % 5 = 0) :=
  C9_download_reconstruction (List.replicate 20 'A') (by decide)

end ProteinApi
